import Mathlib

/-!
A shallow embedding of the simulation core of `src/main.py` (the "Smart Time
Management" prototype): the `Task` record, the `UserModel` state, the four
update rules (`SchedulerAgent`, `TaskOptimizerAgent`, `ReminderAgent`,
`FocusMonitorAgent`), the engine tick `UserModel.step`, and the `/report`
route.  Python integers become `Int`, the float arithmetic of the optimizer
and of the report (`avg * 0.6`, `round(x, 2)`) is modelled exactly over the
rationals, `deque.appendleft` is `List.cons` and `deque.pop` drops from the
back.
-/

namespace STM

/-- One task record (`Task.__init__` in `main.py`).  The opaque uuid `id` is
not modelled: a task is identified by its position in the model's task list,
which is never reordered or resized, so list position carries the Python
object identity. -/
structure Task where
  title : String
  est_minutes : Int
  priority : Int := 3
  deadline : Option String := none
  assigned_slot : Option Int := none
  time_spent : Int := 0
  completed : Bool := false
deriving Repr, DecidableEq

/-- One `focus_log` entry: `{'minute': now, 'task': t.title or None, 'worked': 5 or 0}`. -/
structure FocusEntry where
  minute : Int
  task : Option String
  worked : Int
deriving Repr, DecidableEq

/-- One row collected by the model's `DataCollector`. -/
structure SeriesSample where
  time_minute : Int
  tasks_remaining : Nat
  tasks_completed : Nat
deriving Repr, DecidableEq

/-- The shared simulation state owned by `UserModel`.  `reminders` is the
deque with its front (`appendleft` side) at the list head; `series` is the
data collector's accumulated rows. -/
structure UserModel where
  time_minute : Int := 0
  tasks : List Task := []
  reminders : List String := []
  focus_log : List FocusEntry := []
  series : List SeriesSample := []
deriving Repr, DecidableEq

/-- A fresh model: `UserModel.__init__` with a seed task list. -/
def initModel (ts : List Task) : UserModel :=
  { time_minute := 0, tasks := ts, reminders := [], focus_log := [], series := [] }

/-- `Task(title, est_minutes, priority, deadline)`: the constructor defaults. -/
def mkTask (title : String) (est : Int) (priority : Int := 3)
    (deadline : Option String := none) : Task :=
  { title := title, est_minutes := est, priority := priority, deadline := deadline,
    assigned_slot := none, time_spent := 0, completed := false }

/-! ## SchedulerAgent -/

/-- `x.deadline or '9999'`: Python `or` replaces both `None` and the empty
string (both falsy) by the sentinel. -/
def pyDeadlineOr (d : Option String) : String :=
  match d with
  | none => "9999"
  | some s => if s = "" then "9999" else s

/-- The sort key `(x.priority, x.deadline or '9999')` compared as Python
compares tuples: priority first, then the deadline string.  Python compares
strings lexicographically by code point, which is the order of the
underlying `List Char` data (`a ≤ b` written as `¬ b < a` of the linear
order; the wrapped `String` ordering itself does not reduce in the
kernel). -/
def schedKeyLE (a b : Task) : Bool :=
  decide (a.priority < b.priority) ||
    (decide (a.priority = b.priority) &&
      !decide ((pyDeadlineOr b.deadline).data < (pyDeadlineOr a.deadline).data))

/-- Stable insertion: the inserted element goes before the first strictly
greater element, hence after every earlier element tied with it. -/
def pyInsert (le : α → α → Bool) (a : α) : List α → List α
  | [] => [a]
  | b :: l => if le a b then a :: b :: l else b :: pyInsert le a l

/-- Python's `list.sort(key=...)` is a stable ascending sort; any stable sort
for the same total preorder computes the same list, so it is embedded as a
stable insertion sort. -/
def pySort (le : α → α → Bool) : List α → List α
  | [] => []
  | a :: l => pyInsert le a (pySort le l)

/-- `enumerate`: pair every element with its index, starting at `i`. -/
def enumFrom (i : Nat) : List α → List (Nat × α)
  | [] => []
  | a :: l => (i, a) :: enumFrom (i + 1) l

/-- The `unscheduled` selection of `SchedulerAgent.step`: tasks with
`assigned_slot is None and not completed`, paired with their index. -/
def unscheduledTasks (ts : List Task) : List (Nat × Task) :=
  (enumFrom 0 ts).filter (fun p => p.2.assigned_slot.isNone && !p.2.completed)

/-- `unscheduled.sort(key=lambda x: (x.priority, x.deadline or '9999'))`. -/
def sortedUnscheduled (ts : List Task) : List (Nat × Task) :=
  pySort (fun a b => schedKeyLE a.2 b.2) (unscheduledTasks ts)

/-- The `used` interval list `SchedulerAgent.step` builds from already
scheduled incomplete tasks.  The Python code computes this list and never
reads it again; it is defined here so that exactly that can be stated. -/
def usedIntervals (ts : List Task) : List (Int × Int) :=
  (ts.filter (fun t => t.assigned_slot.isSome && !t.completed)).map
    (fun t => (t.assigned_slot.getD 0, t.assigned_slot.getD 0 + max 30 t.est_minutes))

/-- The assignment walk: each sorted unscheduled task receives the cursor as
its slot, and the cursor advances by `max 30 est_minutes`. -/
def assignWalk (cursor : Int) : List (Nat × Task) → List (Nat × Int)
  | [] => []
  | p :: rest => (p.1, cursor) :: assignWalk (cursor + max 30 p.2.est_minutes) rest

/-- The cursor value in front of position `k` of the assignment walk:
`cursorAt c l 0 = c`, and each later position adds `max 30 est_minutes` of
the task before it. -/
def cursorAt (c : Int) : List (Nat × Task) → Nat → Int
  | [], _ => c
  | _ :: _, 0 => c
  | p :: rest, k + 1 => cursorAt (c + max 30 p.2.est_minutes) rest k

/-- `SchedulerAgent.step`: assign slots to the sorted unscheduled tasks
sequentially from `max(0, time_minute)`. -/
def schedulerStep (m : UserModel) : UserModel :=
  let assigns := assignWalk (max 0 m.time_minute) (sortedUnscheduled m.tasks)
  { m with tasks := (enumFrom 0 m.tasks).map (fun p =>
      match assigns.lookup p.1 with
      | some v => { p.2 with assigned_slot := some v }
      | none => p.2) }

/-! ## TaskOptimizerAgent -/

/-- The per-task body of the `TaskOptimizerAgent.step` loop: given the list
of incomplete (`remaining`) tasks, decrement the priority (clamped at 1) of
an incomplete task with `est_minutes < avg_est * 0.6` while more than 3
tasks remain.  The comparison against `avg_est * 0.6` (with
`avg_est = sum/len`) is the exact rational inequality with the positive
denominators `len` and `10` cleared; `optimizeTask_cond_iff` proves it equal
to the `ℚ` form whenever `len > 0` (and the `len > 3` conjunct makes the two
conditions agree everywhere). -/
def optimizeTask (remaining : List Task) (t : Task) : Task :=
  if !t.completed &&
      decide (10 * t.est_minutes * (remaining.length : Int) <
        6 * (remaining.map (fun u => u.est_minutes)).sum) &&
      decide (remaining.length > 3)
  then { t with priority := max 1 (t.priority - 1) }
  else t

/-- `TaskOptimizerAgent.step`: skip when no tasks remain, else run the loop
body over every task (the loop ranges over `remaining`; completed tasks are
untouched by `optimizeTask`, so mapping over all tasks is the same). -/
def optimizerStep (m : UserModel) : UserModel :=
  let remaining := m.tasks.filter (fun t => !t.completed)
  if remaining.isEmpty then m
  else { m with tasks := m.tasks.map (optimizeTask remaining) }

/-! ## ReminderAgent -/

/-- The reminder message text built by `ReminderAgent.step`. -/
def reminderText (title : String) (slot : Int) : String :=
  "Reminder: '" ++ title ++ "' starts at minute " ++ toString slot ++ "."

/-- `while len(self.model.reminders) > 50: self.model.reminders.pop()`: one
loop iteration drops the back entry while more than 50 remain.  The loop can
run at most as many times as the list is long; that bound is the structural
fuel argument. -/
def trimBack : Nat → List String → List String
  | 0, l => l
  | n + 1, l => if l.length > 50 then trimBack n l.dropLast else l

/-- The whole trimming loop of `ReminderAgent.step`. -/
def trim50 (l : List String) : List String := trimBack l.length l

/-- One guarded insertion of `ReminderAgent.step`: skip when the exact text
is already present, else push to the front and trim. -/
def reminderInsert (rs : List String) (text : String) : List String :=
  if text ∈ rs then rs else trim50 (text :: rs)

/-- The task loop of `ReminderAgent.step`: every incomplete task whose
assigned slot lies within the next 30 simulated minutes (inclusive) yields
one guarded insertion. -/
def reminderLoop (now : Int) : List Task → List String → List String
  | [], rs => rs
  | t :: rest, rs =>
    match t.assigned_slot with
    | some slot =>
      if !t.completed && decide (0 ≤ slot - now) && decide (slot - now ≤ 30) then
        reminderLoop now rest (reminderInsert rs (reminderText t.title slot))
      else reminderLoop now rest rs
    | none => reminderLoop now rest rs

/-- `ReminderAgent.step` on the whole model. -/
def reminderStep (m : UserModel) : UserModel :=
  { m with reminders := reminderLoop m.time_minute m.tasks m.reminders }

/-! ## FocusMonitorAgent -/

/-- The active-window test of `FocusMonitorAgent.step`: an incomplete task
with a slot whose window `[slot, slot + est_minutes)` contains `now`. -/
def isActive (now : Int) (t : Task) : Bool :=
  match t.assigned_slot with
  | some start => !t.completed && decide (start ≤ now) && decide (now < start + t.est_minutes)
  | none => false

/-- Advance the active task by one tick: `time_spent += 5`, then mark it
completed when `time_spent >= est_minutes` (checked after the increment). -/
def advanceTask (t : Task) : Task :=
  if t.est_minutes ≤ t.time_spent + 5 then
    { t with time_spent := t.time_spent + 5, completed := true }
  else { t with time_spent := t.time_spent + 5 }

/-- The scan of `FocusMonitorAgent.step`: the first active task advances and
the scan returns (`return` in the Python loop); everything else is untouched.
The second component reports the advanced task, already advanced. -/
def workScan (now : Int) : List Task → List Task × Option Task
  | [] => ([], none)
  | t :: rest =>
    if isActive now t then (advanceTask t :: rest, some (advanceTask t))
    else ((t :: (workScan now rest).1, (workScan now rest).2))

/-- `FocusMonitorAgent.step` on the whole model: advance the first active
task, log the focus entry, and push the completion notice (untrimmed) when
the task just completed; log an idle entry when no task is active. -/
def focusStep (m : UserModel) : UserModel :=
  match workScan m.time_minute m.tasks with
  | (ts, some t) =>
    { m with tasks := ts,
             focus_log := m.focus_log ++ [{ minute := m.time_minute, task := some t.title, worked := 5 }],
             reminders := if t.completed then ("Completed: " ++ t.title) :: m.reminders
                          else m.reminders }
  | (ts, none) =>
    { m with tasks := ts,
             focus_log := m.focus_log ++ [{ minute := m.time_minute, task := none, worked := 0 }] }

/-! ## Engine tick -/

/-- The clock advance at the top of `UserModel.step`: `self.time_minute += 5`. -/
def tickClock (m : UserModel) : UserModel :=
  { m with time_minute := m.time_minute + 5 }

/-- One `DataCollector` row: the three model reporters evaluated now. -/
def collectSample (m : UserModel) : SeriesSample :=
  { time_minute := m.time_minute,
    tasks_remaining := (m.tasks.filter (fun t => !t.completed)).length,
    tasks_completed := (m.tasks.filter (fun t => t.completed)).length }

/-- `self.datacollector.collect(self)`: append one row. -/
def collectStep (m : UserModel) : UserModel :=
  { m with series := m.series ++ [collectSample m] }

/-- `UserModel.step`: advance the clock by 5 simulated minutes, run the four
rules in the `BaseScheduler` order they were added (the fifth agent,
`ReportGeneratorAgent.step`, is a no-op `return`), then collect one row. -/
def UserModel.step (m : UserModel) : UserModel :=
  collectStep (focusStep (reminderStep (optimizerStep (schedulerStep (tickClock m)))))

/-! ## The `/report` route -/

/-- The payload of a successful `/report` response. -/
structure TaskReport where
  total_tasks : Nat
  completed : Nat
  pct_done : ℚ
  avg_est_minutes : ℚ
deriving Repr, DecidableEq

/-- Python's `round(x, 2)` at integer precision on exact values: round half
to even. -/
def roundHalfEven (x : ℚ) : ℤ :=
  if Int.fract x < 1/2 then ⌊x⌋
  else if 1/2 < Int.fract x then ⌊x⌋ + 1
  else if ⌊x⌋ % 2 = 0 then ⌊x⌋ else ⌊x⌋ + 1

/-- `round(x, 2)`: two decimal places. -/
def round2 (x : ℚ) : ℚ := (roundHalfEven (x * 100) : ℚ) / 100

/-- The `/report` route: a distinct failure when no model exists, a distinct
failure when the model holds zero tasks, otherwise the derived statistics.
The dead `0 if len(df)==0` branch of `pct_done` is kept as in the source. -/
def report (model : Option UserModel) : Except String TaskReport :=
  match model with
  | none => .error "no model initialized"
  | some m =>
    if m.tasks.isEmpty then .error "no tasks"
    else
      let total := m.tasks.length
      let completedCount := (m.tasks.filter (fun t => t.completed)).length
      Except.ok
        { total_tasks := total,
          completed := completedCount,
          pct_done := if total = 0 then 0
                      else round2 ((completedCount : ℚ) / (total : ℚ) * 100),
          avg_est_minutes := round2 (((m.tasks.map (fun t => t.est_minutes)).sum : ℚ) / (total : ℚ)) }

/-! ## Basic lemmas about the scaffolding -/

theorem enumFrom_length (s : Nat) (l : List α) : (enumFrom s l).length = l.length := by
  induction l generalizing s with
  | nil => rfl
  | cons a l ih => simp [enumFrom, ih]

theorem enumFrom_getElem? (s k : Nat) (l : List α) :
    (enumFrom s l)[k]? = l[k]?.map (fun a => (s + k, a)) := by
  induction l generalizing s k with
  | nil => simp [enumFrom]
  | cons a l ih =>
    cases k with
    | zero => simp [enumFrom]
    | succ k =>
      simp only [enumFrom, List.getElem?_cons_succ, ih (s + 1) k]
      cases h : l[k]? with
      | none => simp
      | some b => simp; omega

theorem mem_enumFrom_zero {l : List α} {i : Nat} {a : α} :
    (i, a) ∈ enumFrom 0 l ↔ l[i]? = some a := by
  rw [List.mem_iff_getElem?]
  constructor
  · rintro ⟨n, hn⟩
    rw [enumFrom_getElem?] at hn
    cases h : l[n]? with
    | none => rw [h] at hn; simp at hn
    | some b =>
      rw [h] at hn
      simp at hn
      obtain ⟨h1, h2⟩ := hn
      subst h2; subst h1
      simpa using h
  · intro h
    exact ⟨i, by rw [enumFrom_getElem?, h]; simp⟩

theorem enumFrom_map_fst (s : Nat) (l : List α) :
    (enumFrom s l).map Prod.fst = List.range' s l.length := by
  induction l generalizing s with
  | nil => rfl
  | cons a l ih => simp [enumFrom, ih, List.range'_succ]

theorem pyInsert_perm (le : α → α → Bool) (a : α) (l : List α) :
    (pyInsert le a l).Perm (a :: l) := by
  induction l with
  | nil => simp [pyInsert]
  | cons b l ih =>
    simp only [pyInsert]
    split
    · exact List.Perm.refl _
    · exact ((ih.cons b).trans (List.Perm.swap a b l))

theorem pySort_perm (le : α → α → Bool) (l : List α) : (pySort le l).Perm l := by
  induction l with
  | nil => exact List.Perm.refl _
  | cons a l ih => exact (pyInsert_perm le a (pySort le l)).trans (ih.cons a)

theorem assignWalk_map_fst (c : Int) (l : List (Nat × Task)) :
    (assignWalk c l).map Prod.fst = l.map Prod.fst := by
  induction l generalizing c with
  | nil => rfl
  | cons p rest ih => simp [assignWalk, ih]

theorem assignWalk_getElem? (c : Int) (l : List (Nat × Task)) (k : Nat) :
    (assignWalk c l)[k]? = l[k]?.map (fun p => (p.1, cursorAt c l k)) := by
  induction l generalizing c k with
  | nil => simp [assignWalk]
  | cons p rest ih =>
    cases k with
    | zero => simp [assignWalk, cursorAt]
    | succ k => simp [assignWalk, cursorAt, ih]

theorem cursorAt_zero (c : Int) (l : List (Nat × Task)) : cursorAt c l 0 = c := by
  cases l <;> rfl

theorem cursorAt_succ (c : Int) (l : List (Nat × Task)) (k : Nat) (p : Nat × Task)
    (h : l[k]? = some p) :
    cursorAt c l (k + 1) = cursorAt c l k + max 30 p.2.est_minutes := by
  induction l generalizing c k with
  | nil => simp at h
  | cons q rest ih =>
    cases k with
    | zero =>
      simp at h
      subst h
      simp [cursorAt, cursorAt_zero]
    | succ k =>
      simp at h
      simpa [cursorAt] using ih (c + max 30 q.2.est_minutes) k h

theorem lookup_eq_none_of_not_mem_fst {l : List (Nat × Int)} {i : Nat}
    (h : i ∉ l.map Prod.fst) : List.lookup i l = none := by
  induction l with
  | nil => rfl
  | cons p rest ih =>
    obtain ⟨k, v⟩ := p
    simp at h
    have hbeq : (i == k) = false := beq_eq_false_iff_ne.mpr h.1
    simp only [List.lookup, hbeq]
    exact ih (by simpa using h.2)

theorem mem_fst_of_lookup_eq_some {l : List (Nat × Int)} {i : Nat} {v : Int}
    (h : List.lookup i l = some v) : i ∈ l.map Prod.fst := by
  induction l with
  | nil => simp [List.lookup] at h
  | cons p rest ih =>
    obtain ⟨k, w⟩ := p
    simp only [List.lookup] at h
    cases hbeq : i == k with
    | true =>
      have : i = k := beq_iff_eq.mp hbeq
      simp [this]
    | false =>
      simp only [hbeq] at h
      simpa using Or.inr (by simpa using ih h)

theorem trimBack_spec (n : Nat) (l : List String) (hn : l.length ≤ 50 + n) :
    trimBack n l = if l.length ≤ 50 then l else l.take 50 := by
  induction n generalizing l with
  | zero => rw [trimBack, if_pos (by omega)]
  | succ n ih =>
    rw [trimBack]
    by_cases h : l.length > 50
    · rw [if_pos h, ih l.dropLast (by simp [List.length_dropLast]; omega)]
      simp only [List.length_dropLast]
      by_cases h2 : l.length - 1 ≤ 50
      · rw [if_pos h2, if_neg (by omega), List.dropLast_eq_take]
        congr 1
        omega
      · rw [if_neg h2, if_neg (by omega), List.dropLast_eq_take, List.take_take]
        congr 1
        omega
    · rw [if_neg h, if_pos (by omega)]

theorem trim50_spec (l : List String) : trim50 l = if l.length ≤ 50 then l else l.take 50 :=
  trimBack_spec l.length l (by omega)

theorem trim50_length (l : List String) : (trim50 l).length = min l.length 50 := by
  rw [trim50_spec]
  split
  · omega
  · simp
    omega

theorem trim50_head? (l : List String) : (trim50 l).head? = l.head? := by
  rw [trim50_spec]
  split
  · rfl
  · rw [List.head?_eq_getElem?, List.head?_eq_getElem?, List.getElem?_take]
    simp

theorem reminderInsert_length_le (rs : List String) (text : String) :
    (reminderInsert rs text).length ≤ max rs.length 50 := by
  by_cases h : text ∈ rs
  · rw [reminderInsert, if_pos h]
    exact le_max_left _ _
  · rw [reminderInsert, if_neg h, trim50_length]
    simp only [List.length_cons]
    omega

theorem reminderLoop_length_le (now : Int) (ts : List Task) (rs : List String) :
    (reminderLoop now ts rs).length ≤ max rs.length 50 := by
  induction ts generalizing rs with
  | nil =>
    rw [reminderLoop]
    exact le_max_left _ _
  | cons t rest ih =>
    cases hs : t.assigned_slot with
    | none => simpa [reminderLoop, hs] using ih rs
    | some slot =>
      by_cases hcond :
          (!t.completed && decide (0 ≤ slot - now) && decide (slot - now ≤ 30)) = true
      · have h1 := ih (reminderInsert rs (reminderText t.title slot))
        have h2 := reminderInsert_length_le rs (reminderText t.title slot)
        simp only [reminderLoop, hs, if_pos hcond]
        omega
      · simp only [reminderLoop, hs, if_neg hcond]
        exact ih rs

/-! ## The work-rule scan -/

theorem workScan_eq (now : Int) (ts : List Task) :
    ((∀ u ∈ ts, isActive now u = false) ∧ workScan now ts = (ts, none)) ∨
    (∃ l₁ t l₂, ts = l₁ ++ t :: l₂ ∧ (∀ u ∈ l₁, isActive now u = false) ∧
      isActive now t = true ∧
      workScan now ts = (l₁ ++ advanceTask t :: l₂, some (advanceTask t))) := by
  induction ts with
  | nil => exact Or.inl ⟨by simp, rfl⟩
  | cons t rest ih =>
    cases h : isActive now t with
    | true => exact Or.inr ⟨[], t, rest, rfl, by simp, h, by simp [workScan, h]⟩
    | false =>
      rcases ih with ⟨hall, heq⟩ | ⟨l₁, u, l₂, hsplit, hl₁, hu, heq⟩
      · refine Or.inl ⟨?_, ?_⟩
        · intro v hv
          rcases List.mem_cons.mp hv with rfl | hv
          · exact h
          · exact hall v hv
        · simp [workScan, h, heq]
      · subst hsplit
        refine Or.inr ⟨t :: l₁, u, l₂, rfl, ?_, hu, ?_⟩
        · intro v hv
          rcases List.mem_cons.mp hv with rfl | hv
          · exact h
          · exact hl₁ v hv
        · simp [workScan, h, heq]

theorem find?_first {p : Task → Bool} (l₁ : List Task) (t : Task) (l₂ : List Task)
    (h1 : ∀ u ∈ l₁, p u = false) (ht : p t = true) :
    (l₁ ++ t :: l₂).find? p = some t := by
  induction l₁ with
  | nil => simp [List.find?_cons, ht]
  | cons a l ih =>
    have ha : p a = false := h1 a (by simp)
    simpa [List.find?_cons, ha] using ih (fun u hu => h1 u (by simp [hu]))

/-! ## Fields the individual rules leave alone -/

theorem schedulerStep_time (m : UserModel) : (schedulerStep m).time_minute = m.time_minute := rfl

theorem schedulerStep_reminders (m : UserModel) : (schedulerStep m).reminders = m.reminders := rfl

theorem schedulerStep_focus_log (m : UserModel) : (schedulerStep m).focus_log = m.focus_log := rfl

theorem schedulerStep_series (m : UserModel) : (schedulerStep m).series = m.series := rfl

theorem optimizerStep_time (m : UserModel) : (optimizerStep m).time_minute = m.time_minute := by
  simp only [optimizerStep]
  split <;> rfl

theorem optimizerStep_reminders (m : UserModel) : (optimizerStep m).reminders = m.reminders := by
  simp only [optimizerStep]
  split <;> rfl

theorem optimizerStep_focus_log (m : UserModel) : (optimizerStep m).focus_log = m.focus_log := by
  simp only [optimizerStep]
  split <;> rfl

theorem optimizerStep_series (m : UserModel) : (optimizerStep m).series = m.series := by
  simp only [optimizerStep]
  split <;> rfl

theorem reminderStep_tasks (m : UserModel) : (reminderStep m).tasks = m.tasks := rfl

theorem reminderStep_time (m : UserModel) : (reminderStep m).time_minute = m.time_minute := rfl

theorem reminderStep_focus_log (m : UserModel) : (reminderStep m).focus_log = m.focus_log := rfl

theorem reminderStep_series (m : UserModel) : (reminderStep m).series = m.series := rfl

theorem focusStep_time (m : UserModel) : (focusStep m).time_minute = m.time_minute := by
  rcases h : workScan m.time_minute m.tasks with ⟨ts, o⟩
  cases o <;> simp [focusStep, h]

theorem focusStep_series (m : UserModel) : (focusStep m).series = m.series := by
  rcases h : workScan m.time_minute m.tasks with ⟨ts, o⟩
  cases o <;> simp [focusStep, h]

theorem collectStep_time (m : UserModel) : (collectStep m).time_minute = m.time_minute := rfl

theorem collectStep_tasks (m : UserModel) : (collectStep m).tasks = m.tasks := rfl

theorem collectStep_reminders (m : UserModel) : (collectStep m).reminders = m.reminders := rfl

theorem collectStep_focus_log (m : UserModel) : (collectStep m).focus_log = m.focus_log := rfl

/-! ## Scheduler-rule lemmas -/

theorem schedulerStep_tasks_getElem? (m : UserModel) (i : Nat) :
    (schedulerStep m).tasks[i]? = m.tasks[i]?.map (fun t =>
      match List.lookup i (assignWalk (max 0 m.time_minute) (sortedUnscheduled m.tasks)) with
      | some v => { t with assigned_slot := some v }
      | none => t) := by
  simp only [schedulerStep]
  rw [List.getElem?_map, enumFrom_getElem?]
  cases h : m.tasks[i]? <;> simp

theorem sortedUnscheduled_fst_nodup (ts : List Task) :
    ((sortedUnscheduled ts).map Prod.fst).Nodup := by
  have hperm : ((sortedUnscheduled ts).map Prod.fst).Perm ((unscheduledTasks ts).map Prod.fst) :=
    (pySort_perm _ _).map _
  refine hperm.nodup_iff.mpr ?_
  have hsub : List.Sublist ((unscheduledTasks ts).map Prod.fst) ((enumFrom 0 ts).map Prod.fst) :=
    List.Sublist.map Prod.fst (List.filter_sublist _)
  refine hsub.nodup ?_
  rw [enumFrom_map_fst]
  exact List.nodup_range' 0 ts.length

theorem mem_sortedUnscheduled_iff {ts : List Task} {i : Nat} {t : Task} :
    (i, t) ∈ sortedUnscheduled ts ↔
      ts[i]? = some t ∧ t.assigned_slot = none ∧ t.completed = false := by
  unfold sortedUnscheduled
  rw [(pySort_perm _ _).mem_iff]
  unfold unscheduledTasks
  rw [List.mem_filter, mem_enumFrom_zero]
  constructor
  · rintro ⟨h1, h2⟩
    simp at h2
    exact ⟨h1, Option.isNone_iff_eq_none.mp (by simpa using h2.1), by simpa using h2.2⟩
  · rintro ⟨h1, h2, h3⟩
    exact ⟨h1, by simp [h2, h3]⟩

theorem mem_fst_sortedUnscheduled {ts : List Task} {i : Nat}
    (h : i ∈ (sortedUnscheduled ts).map Prod.fst) :
    ∃ t, ts[i]? = some t ∧ t.assigned_slot = none ∧ t.completed = false := by
  rcases List.mem_map.mp h with ⟨p, hp, hfst⟩
  obtain ⟨j, t⟩ := p
  cases hfst
  exact ⟨t, mem_sortedUnscheduled_iff.mp hp⟩

theorem schedulerStep_keeps {m : UserModel} {i : Nat} {t : Task}
    (h : m.tasks[i]? = some t) :
    ∃ t', (schedulerStep m).tasks[i]? = some t' ∧
      t'.title = t.title ∧ t'.est_minutes = t.est_minutes ∧ t'.priority = t.priority ∧
      t'.deadline = t.deadline ∧ t'.time_spent = t.time_spent ∧ t'.completed = t.completed ∧
      (t'.assigned_slot = t.assigned_slot ∨ t.assigned_slot = none) := by
  rw [schedulerStep_tasks_getElem?, h]
  cases hl : List.lookup i (assignWalk (max 0 m.time_minute) (sortedUnscheduled m.tasks)) with
  | none => exact ⟨t, by simp, rfl, rfl, rfl, rfl, rfl, rfl, Or.inl rfl⟩
  | some v =>
    refine ⟨{ t with assigned_slot := some v }, by simp, rfl, rfl, rfl, rfl, rfl, rfl, Or.inr ?_⟩
    have hmem : i ∈ ((sortedUnscheduled m.tasks).map Prod.fst) := by
      have := mem_fst_of_lookup_eq_some hl
      rwa [assignWalk_map_fst] at this
    rcases mem_fst_sortedUnscheduled hmem with ⟨u, hu, hslot, _⟩
    rw [h] at hu
    cases hu
    exact hslot

theorem schedulerStep_skips {m : UserModel} {i : Nat} {t : Task}
    (h : m.tasks[i]? = some t) (hsel : t.assigned_slot ≠ none ∨ t.completed = true) :
    (schedulerStep m).tasks[i]? = some t := by
  rw [schedulerStep_tasks_getElem?, h]
  cases hl : List.lookup i (assignWalk (max 0 m.time_minute) (sortedUnscheduled m.tasks)) with
  | none => simp
  | some v =>
    exfalso
    have hmem : i ∈ ((sortedUnscheduled m.tasks).map Prod.fst) := by
      have := mem_fst_of_lookup_eq_some hl
      rwa [assignWalk_map_fst] at this
    rcases mem_fst_sortedUnscheduled hmem with ⟨u, hu, hslot, hcomp⟩
    rw [h] at hu
    cases hu
    rcases hsel with h1 | h1
    · exact h1 hslot
    · rw [h1] at hcomp
      exact Bool.noConfusion hcomp

theorem lookup_assignWalk {l : List (Nat × Task)} (hnd : (l.map Prod.fst).Nodup)
    {k : Nat} {p : Nat × Task} (hk : l[k]? = some p) (c : Int) :
    List.lookup p.1 (assignWalk c l) = some (cursorAt c l k) := by
  induction l generalizing c k with
  | nil => simp at hk
  | cons q rest ih =>
    cases k with
    | zero =>
      simp at hk
      subst hk
      simp [assignWalk, List.lookup, cursorAt_zero, cursorAt]
    | succ k =>
      simp at hk
      rw [List.map_cons, List.nodup_cons] at hnd
      have hne : (p.1 == q.1) = false := by
        refine beq_eq_false_iff_ne.mpr fun hEq => ?_
        exact hnd.1 (hEq ▸ List.mem_map_of_mem Prod.fst (List.getElem?_mem hk))
      simp only [assignWalk, List.lookup, hne, cursorAt]
      exact ih hnd.2 hk _

theorem schedulerStep_length (m : UserModel) :
    (schedulerStep m).tasks.length = m.tasks.length := by
  simp only [schedulerStep]
  rw [List.length_map, enumFrom_length]

/-! ## Optimizer-rule lemmas -/

theorem optimizerStep_tasks_getElem? (m : UserModel) (i : Nat) :
    (optimizerStep m).tasks[i]? = m.tasks[i]?.map (fun t =>
      if (m.tasks.filter (fun u => !u.completed)).isEmpty then t
      else optimizeTask (m.tasks.filter (fun u => !u.completed)) t) := by
  simp only [optimizerStep]
  split
  · rename_i hemp
    cases h : m.tasks[i]? <;> simp [h, hemp]
  · rename_i hemp
    rw [List.getElem?_map]

theorem optimizeTask_cases (rem : List Task) (t : Task) :
    optimizeTask rem t = t ∨
      (t.completed = false ∧
        optimizeTask rem t = { t with priority := max 1 (t.priority - 1) }) := by
  unfold optimizeTask
  split
  · rename_i hc
    simp only [Bool.and_eq_true, Bool.not_eq_true'] at hc
    exact Or.inr ⟨hc.1.1, rfl⟩
  · exact Or.inl rfl

theorem optimizeTask_shape (rem : List Task) (t : Task) :
    (optimizeTask rem t).title = t.title ∧
    (optimizeTask rem t).est_minutes = t.est_minutes ∧
    (optimizeTask rem t).deadline = t.deadline ∧
    (optimizeTask rem t).assigned_slot = t.assigned_slot ∧
    (optimizeTask rem t).time_spent = t.time_spent ∧
    (optimizeTask rem t).completed = t.completed ∧
    ((optimizeTask rem t).priority = t.priority ∨
      (optimizeTask rem t).priority = max 1 (t.priority - 1)) := by
  unfold optimizeTask
  split
  · exact ⟨rfl, rfl, rfl, rfl, rfl, rfl, Or.inr rfl⟩
  · exact ⟨rfl, rfl, rfl, rfl, rfl, rfl, Or.inl rfl⟩

theorem optimizeTask_cond_iff (est S : Int) (n : Nat) (hn : 0 < n) :
    (10 * est * (n : Int) < 6 * S) ↔ ((est : ℚ) < (S : ℚ) / (n : ℚ) * 0.6) := by
  have hn' : (0 : ℚ) < (n : ℚ) := by exact_mod_cast hn
  rw [show (0.6 : ℚ) = 6 / 10 by norm_num]
  rw [div_mul_div_comm, lt_div_iff₀ (by positivity)]
  rw [show (est : ℚ) * ((n : ℚ) * 10) = ((10 * est * (n : Int) : Int) : ℚ) by push_cast; ring]
  rw [show (S : ℚ) * 6 = ((6 * S : Int) : ℚ) by push_cast; ring]
  exact (Int.cast_lt).symm

theorem optimizerStep_length (m : UserModel) :
    (optimizerStep m).tasks.length = m.tasks.length := by
  simp only [optimizerStep]
  split
  · rfl
  · rw [List.length_map]

/-! ## Work-rule lemmas -/

theorem focusStep_tasks_getElem? (m : UserModel) (i : Nat) :
    (focusStep m).tasks[i]? = m.tasks[i]? ∨
      (∃ t, m.tasks[i]? = some t ∧ isActive m.time_minute t = true ∧
        (focusStep m).tasks[i]? = some (advanceTask t)) := by
  rcases workScan_eq m.time_minute m.tasks with ⟨hall, heq⟩ | ⟨l₁, t, l₂, hsplit, hl₁, ht, heq⟩
  · left
    simp [focusStep, heq]
  · have htasks : (focusStep m).tasks = l₁ ++ advanceTask t :: l₂ := by
      simp [focusStep, heq]
    rcases Nat.lt_trichotomy i l₁.length with hi | hi | hi
    · left
      rw [htasks, hsplit]
      simp only [List.getElem?_append, if_pos hi]
    · right
      refine ⟨t, ?_, ht, ?_⟩
      · rw [hsplit, List.getElem?_append, if_neg (by omega), hi, Nat.sub_self]
        simp
      · rw [htasks, List.getElem?_append, if_neg (by omega), hi, Nat.sub_self]
        simp
    · left
      rw [htasks, hsplit]
      simp only [List.getElem?_append, if_neg (by omega : ¬ i < l₁.length)]
      cases hd : i - l₁.length with
      | zero => omega
      | succ k => simp

theorem advanceTask_fields (t : Task) :
    (advanceTask t).title = t.title ∧ (advanceTask t).est_minutes = t.est_minutes ∧
    (advanceTask t).priority = t.priority ∧ (advanceTask t).deadline = t.deadline ∧
    (advanceTask t).assigned_slot = t.assigned_slot ∧
    (advanceTask t).time_spent = t.time_spent + 5 := by
  unfold advanceTask
  split <;> exact ⟨rfl, rfl, rfl, rfl, rfl, rfl⟩

theorem advanceTask_completed (t : Task) :
    (advanceTask t).completed = (t.completed || decide (t.est_minutes ≤ t.time_spent + 5)) := by
  unfold advanceTask
  split
  · rename_i h
    simp [h]
  · rename_i h
    simp [h]

theorem isActive_not_completed {now : Int} {t : Task} (h : isActive now t = true) :
    t.completed = false := by
  unfold isActive at h
  cases hs : t.assigned_slot with
  | none => rw [hs] at h; exact Bool.noConfusion h
  | some v =>
    rw [hs] at h
    simp at h
    simp [h.1]

theorem getElem?_append_middle_ne (l₁ : List Task) (a b : Task) (l₂ : List Task) (i : Nat)
    (hne : i ≠ l₁.length) : (l₁ ++ a :: l₂)[i]? = (l₁ ++ b :: l₂)[i]? := by
  rcases Nat.lt_trichotomy i l₁.length with hi | hi | hi
  · simp only [List.getElem?_append, if_pos hi]
  · exact absurd hi hne
  · simp only [List.getElem?_append, if_neg (by omega : ¬ i < l₁.length)]
    cases hd : i - l₁.length with
    | zero => omega
    | succ k => simp

theorem getElem?_append_middle (l₁ : List Task) (a : Task) (l₂ : List Task) :
    (l₁ ++ a :: l₂)[l₁.length]? = some a := by
  rw [List.getElem?_append, if_neg (by omega), Nat.sub_self]
  simp

theorem focusStep_length (m : UserModel) :
    (focusStep m).tasks.length = m.tasks.length := by
  rcases workScan_eq m.time_minute m.tasks with ⟨hall, heq⟩ | ⟨l₁, t, l₂, hsplit, hl₁, ht, heq⟩
  · simp [focusStep, heq]
  · have : (focusStep m).tasks = l₁ ++ advanceTask t :: l₂ := by
      simp [focusStep, heq]
    rw [this, hsplit]
    simp

theorem optimizerStep_task {m : UserModel} {i : Nat} {t : Task} (h : m.tasks[i]? = some t) :
    ∃ t', (optimizerStep m).tasks[i]? = some t' ∧
      t'.title = t.title ∧ t'.est_minutes = t.est_minutes ∧ t'.deadline = t.deadline ∧
      t'.assigned_slot = t.assigned_slot ∧ t'.time_spent = t.time_spent ∧
      t'.completed = t.completed ∧
      (t'.priority = t.priority ∨ t'.priority = max 1 (t.priority - 1)) := by
  rw [optimizerStep_tasks_getElem?, h]
  by_cases hE : (m.tasks.filter (fun u => !u.completed)).isEmpty
  · exact ⟨t, by simp [hE], rfl, rfl, rfl, rfl, rfl, rfl, Or.inl rfl⟩
  · obtain ⟨h1, h2, h3, h4, h5, h6, h7⟩ :=
      optimizeTask_shape (m.tasks.filter (fun u => !u.completed)) t
    exact ⟨optimizeTask (m.tasks.filter (fun u => !u.completed)) t, by simp [hE],
      h1, h2, h3, h4, h5, h6, h7⟩

theorem focusStep_task {m : UserModel} {i : Nat} {t : Task} (h : m.tasks[i]? = some t) :
    ∃ t', (focusStep m).tasks[i]? = some t' ∧
      t'.title = t.title ∧ t'.est_minutes = t.est_minutes ∧ t'.deadline = t.deadline ∧
      t'.assigned_slot = t.assigned_slot ∧ t'.priority = t.priority ∧
      ((t'.time_spent = t.time_spent ∧ t'.completed = t.completed) ∨
        (isActive m.time_minute t = true ∧ t.completed = false ∧
          t'.time_spent = t.time_spent + 5 ∧
          t'.completed = decide (t.est_minutes ≤ t.time_spent + 5))) := by
  rcases focusStep_tasks_getElem? m i with hsame | ⟨u, hu, hact, hadv⟩
  · rw [hsame, h]
    exact ⟨t, rfl, rfl, rfl, rfl, rfl, rfl, Or.inl ⟨rfl, rfl⟩⟩
  · rw [h] at hu
    injection hu with hu
    subst hu
    obtain ⟨f1, f2, f3, f4, f5, f6⟩ := advanceTask_fields t
    have hcomp : t.completed = false := isActive_not_completed hact
    refine ⟨advanceTask t, hadv, f1, f2, f4, f5, f3, Or.inr ⟨hact, hcomp, f6, ?_⟩⟩
    rw [advanceTask_completed, hcomp]
    simp

theorem tickClock_tasks (m : UserModel) : (tickClock m).tasks = m.tasks := rfl

theorem step_task_rel {m : UserModel} {i : Nat} {t : Task} (h : m.tasks[i]? = some t) :
    ∃ t', (UserModel.step m).tasks[i]? = some t' ∧
      t'.title = t.title ∧ t'.est_minutes = t.est_minutes ∧ t'.deadline = t.deadline ∧
      (t'.priority = t.priority ∨ t'.priority = max 1 (t.priority - 1)) ∧
      (t'.assigned_slot = t.assigned_slot ∨ t.assigned_slot = none) ∧
      ((t'.time_spent = t.time_spent ∧ t'.completed = t.completed) ∨
        (t.completed = false ∧ t'.time_spent = t.time_spent + 5 ∧
          t'.completed = decide (t.est_minutes ≤ t.time_spent + 5))) := by
  have h1 : (tickClock m).tasks[i]? = some t := by rw [tickClock_tasks]; exact h
  obtain ⟨t2, h2, a1, a2, a3, a4, a5, a6, a7⟩ := schedulerStep_keeps h1
  obtain ⟨t3, h3, b1, b2, b3, b4, b5, b6, b7⟩ := optimizerStep_task h2
  have h3' : (reminderStep (optimizerStep (schedulerStep (tickClock m)))).tasks[i]? = some t3 := by
    rw [reminderStep_tasks]
    exact h3
  obtain ⟨t4, h4, c1, c2, c3, c4, c5, c6⟩ := focusStep_task h3'
  refine ⟨t4, ?_, ?_, ?_, ?_, ?_, ?_, ?_⟩
  · show (collectStep _).tasks[i]? = some t4
    rw [collectStep_tasks]
    exact h4
  · rw [c1, b1, a1]
  · rw [c2, b2, a2]
  · rw [c3, b3, a4]
  · rcases b7 with hb | hb
    · exact Or.inl (by rw [c5, hb, a3])
    · exact Or.inr (by rw [c5, hb, a3])
  · rcases a7 with ha | ha
    · exact Or.inl (by rw [c4, b4, ha])
    · exact Or.inr ha
  · rcases c6 with ⟨hts, hcp⟩ | ⟨_, hcf, hts, hcp⟩
    · exact Or.inl ⟨by rw [hts, b5, a5], by rw [hcp, b6, a6]⟩
    · refine Or.inr ⟨?_, by rw [hts, b5, a5], ?_⟩
      · rw [← a6, ← b6]
        exact hcf
      · rw [hcp, b5, a5, b2, a2]

theorem step_length (m : UserModel) :
    (UserModel.step m).tasks.length = m.tasks.length := by
  show (collectStep _).tasks.length = _
  rw [collectStep_tasks, focusStep_length, reminderStep_tasks, optimizerStep_length,
    schedulerStep_length, tickClock_tasks]

theorem step_time (m : UserModel) : (UserModel.step m).time_minute = m.time_minute + 5 := by
  show (collectStep _).time_minute = _
  rw [collectStep_time, focusStep_time, reminderStep_time, optimizerStep_time,
    schedulerStep_time]
  rfl

theorem step_task_rel_rev {m : UserModel} {i : Nat} {t' : Task}
    (h : (UserModel.step m).tasks[i]? = some t') :
    ∃ t, m.tasks[i]? = some t := by
  have hi : i < m.tasks.length := by
    rw [← step_length m]
    by_contra hge
    push_neg at hge
    rw [List.getElem?_eq_none_iff.mpr hge] at h
    exact Option.noConfusion h
  exact ⟨m.tasks[i], List.getElem?_eq_getElem hi⟩

theorem iterate_time (m : UserModel) (n : Nat) :
    (UserModel.step^[n] m).time_minute = m.time_minute + 5 * n := by
  induction n with
  | zero => simp
  | succ n ih =>
    rw [Function.iterate_succ_apply', step_time, ih]
    push_cast
    ring

theorem priority_bounds_iterate (m : UserModel) (n : Nat)
    (h : ∀ t ∈ m.tasks, 1 ≤ t.priority ∧ t.priority ≤ 5) :
    ∀ t ∈ (UserModel.step^[n] m).tasks, 1 ≤ t.priority ∧ t.priority ≤ 5 := by
  induction n with
  | zero => simpa using h
  | succ n ih =>
    rw [Function.iterate_succ_apply']
    intro t' ht'
    obtain ⟨i, hi⟩ := List.mem_iff_getElem?.mp ht'
    obtain ⟨t, hsrc⟩ := step_task_rel_rev hi
    obtain ⟨t'', h'', _, _, _, hprio, _, _⟩ := step_task_rel hsrc
    rw [hi] at h''
    injection h'' with h''
    subst h''
    have hb := ih t (List.getElem?_mem hsrc)
    rcases hprio with hp | hp
    · omega
    · rw [hp]
      omega

theorem time_spent_invariant_iterate (m : UserModel) (n : Nat)
    (h : ∀ t ∈ m.tasks, 0 ≤ t.time_spent ∧ t.time_spent ≤ t.est_minutes + 5 ∧
        (t.completed = false → t.time_spent < t.est_minutes)) :
    ∀ t ∈ (UserModel.step^[n] m).tasks, 0 ≤ t.time_spent ∧ t.time_spent ≤ t.est_minutes + 5 ∧
        (t.completed = false → t.time_spent < t.est_minutes) := by
  induction n with
  | zero => simpa using h
  | succ n ih =>
    rw [Function.iterate_succ_apply']
    intro t' ht'
    obtain ⟨i, hi⟩ := List.mem_iff_getElem?.mp ht'
    obtain ⟨t, hsrc⟩ := step_task_rel_rev hi
    obtain ⟨t'', h'', _, hest, _, _, _, hts⟩ := step_task_rel hsrc
    rw [hi] at h''
    injection h'' with h''
    subst h''
    obtain ⟨b1, b2, b3⟩ := ih t (List.getElem?_mem hsrc)
    rcases hts with ⟨h1, h2⟩ | ⟨hcf, h1, h2⟩
    · rw [h1, h2, hest]
      exact ⟨b1, b2, b3⟩
    · have hlt := b3 hcf
      refine ⟨by omega, by rw [h1, hest]; omega, ?_⟩
      intro hc'
      rw [h2] at hc'
      rw [hest, h1]
      have : ¬ (t.est_minutes ≤ t.time_spent + 5) := by
        intro hle
        rw [decide_eq_true hle] at hc'
        exact Bool.noConfusion hc'
      omega

theorem step_task_frozen {m : UserModel} {i : Nat} {t : Task} {slot : Int}
    (hget : m.tasks[i]? = some t) (hslot : t.assigned_slot = some slot)
    (hcomp : t.completed = false) (hclock : slot + t.est_minutes ≤ m.time_minute) :
    ∃ t', (UserModel.step m).tasks[i]? = some t' ∧ t'.assigned_slot = some slot ∧
      t'.est_minutes = t.est_minutes ∧ t'.time_spent = t.time_spent ∧
      t'.completed = false := by
  have h1 : (tickClock m).tasks[i]? = some t := by
    rw [tickClock_tasks]
    exact hget
  have h2 : (schedulerStep (tickClock m)).tasks[i]? = some t :=
    schedulerStep_skips h1 (Or.inl (by simp [hslot]))
  obtain ⟨t3, h3, b1, b2, b3, b4, b5, b6, b7⟩ := optimizerStep_task h2
  have h3' : (reminderStep (optimizerStep (schedulerStep (tickClock m)))).tasks[i]? = some t3 := by
    rw [reminderStep_tasks]
    exact h3
  have htm : (reminderStep (optimizerStep (schedulerStep (tickClock m)))).time_minute
      = m.time_minute + 5 := by
    rw [reminderStep_time, optimizerStep_time, schedulerStep_time]
    rfl
  have hact : isActive
      (reminderStep (optimizerStep (schedulerStep (tickClock m)))).time_minute t3 = false := by
    rw [htm]
    unfold isActive
    rw [b4, hslot]
    have hno : ¬ (m.time_minute + 5 < slot + t3.est_minutes) := by
      rw [b2]
      omega
    simp [hno]
  obtain ⟨t4, h4, c1, c2, c3, c4, c5, c6⟩ := focusStep_task h3'
  have hc6 : t4.time_spent = t3.time_spent ∧ t4.completed = t3.completed := by
    rcases c6 with hc | ⟨hA, _⟩
    · exact hc
    · rw [hact] at hA
      exact Bool.noConfusion hA
  refine ⟨t4, ?_, ?_, ?_, ?_, ?_⟩
  · show (collectStep _).tasks[i]? = some t4
    rw [collectStep_tasks]
    exact h4
  · rw [c4, b4, hslot]
  · rw [c2, b2]
  · rw [hc6.1, b5]
  · rw [hc6.2, b6]
    exact hcomp

/-! ## Claim theorems -/

/-- C1, counterexample: the claim of Scenario A is false on the code.  After
seeding one task with `est_minutes = 20`, `priority = 2` and calling `step()`
once, the task's `assigned_slot` is NOT 0: the clock is advanced to 5 before
`SchedulerAgent.step` runs, so the cursor `max(0, time_minute)` starts at 5. -/
theorem scenarioA_claim_false :
    ¬ ((UserModel.step (initModel [mkTask "Email triage" 20 2 none])).time_minute = 5 ∧
       (UserModel.step (initModel [mkTask "Email triage" 20 2 none])).tasks.map
         (fun t => t.assigned_slot) = [some 0] ∧
       (UserModel.step (initModel [mkTask "Email triage" 20 2 none])).tasks.map
         (fun t => t.time_spent) = [5] ∧
       (UserModel.step (initModel [mkTask "Email triage" 20 2 none])).tasks.map
         (fun t => t.completed) = [false]) := by
  decide

/-- C1, amended: seeding a fresh state with exactly one task having
`est_minutes = 20` and `priority = 2` and calling `step()` once yields
`time_minute = 5`, the task's `assigned_slot = 5` (not 0: the clock advances
before the scheduler runs), `time_spent = 5` (the window `[5, 25)` contains
minute 5, so the task advances), and `completed = false`. -/
theorem scenarioA_amended :
    (UserModel.step (initModel [mkTask "Email triage" 20 2 none])).time_minute = 5 ∧
    (UserModel.step (initModel [mkTask "Email triage" 20 2 none])).tasks.map
      (fun t => t.assigned_slot) = [some 5] ∧
    (UserModel.step (initModel [mkTask "Email triage" 20 2 none])).tasks.map
      (fun t => t.time_spent) = [5] ∧
    (UserModel.step (initModel [mkTask "Email triage" 20 2 none])).tasks.map
      (fun t => t.completed) = [false] := by
  decide

/-- C2: one engine tick advances `time_minute` by exactly 5, runs
SchedulerRule, PriorityRule, ReminderRule, WorkRule in that exact order over
the shared state, and appends exactly one data-collector sample holding the
new clock value and the counts of incomplete and completed tasks. -/
theorem engine_tick_anatomy (m : UserModel) :
    UserModel.step m
      = collectStep (focusStep (reminderStep (optimizerStep (schedulerStep (tickClock m))))) ∧
    (UserModel.step m).time_minute = m.time_minute + 5 ∧
    (UserModel.step m).series
      = m.series ++
        [{ time_minute := m.time_minute + 5,
           tasks_remaining := ((UserModel.step m).tasks.filter (fun t => !t.completed)).length,
           tasks_completed := ((UserModel.step m).tasks.filter (fun t => t.completed)).length }] := by
  refine ⟨rfl, step_time m, ?_⟩
  have h5 : (focusStep (reminderStep (optimizerStep (schedulerStep (tickClock m))))).time_minute
      = m.time_minute + 5 := by
    rw [focusStep_time, reminderStep_time, optimizerStep_time, schedulerStep_time]
    rfl
  show (collectStep _).series = _
  simp only [collectStep, collectSample, h5]
  rw [focusStep_series, reminderStep_series, optimizerStep_series, schedulerStep_series]
  rfl

/-- C3: on every tick, at most one task advances and by exactly 5 minutes:
`FocusMonitorAgent.step` scans the tasks in stored order; per index, a task
is either untouched or it is the single first active one (window
`[assigned_slot, assigned_slot + est_minutes)` containing the clock) and is
advanced by `advanceTask`; when the first active task (`find?` order) exists,
a focus-log entry `{clock, title, 5}` is appended, its `time_spent` grows by
exactly 5, it completes exactly when `time_spent` reaches `est_minutes`, and
the `"Completed: <title>"` message goes to the front of the reminders; when
no task is active, only a single idle entry `{clock, none, 0}` is appended. -/
theorem work_rule_spec (m : UserModel) :
    ((focusStep m).tasks.length = m.tasks.length) ∧
    (∀ i : Nat, (focusStep m).tasks[i]? = m.tasks[i]? ∨
      (∃ t, m.tasks[i]? = some t ∧ isActive m.time_minute t = true ∧
        (focusStep m).tasks[i]? = some (advanceTask t) ∧
        (advanceTask t).time_spent = t.time_spent + 5 ∧
        (∀ j : Nat, j ≠ i → (focusStep m).tasks[j]? = m.tasks[j]?))) ∧
    (∀ t, m.tasks.find? (isActive m.time_minute) = some t →
      (focusStep m).focus_log
          = m.focus_log ++ [{ minute := m.time_minute, task := some t.title, worked := 5 }] ∧
      (advanceTask t).time_spent = t.time_spent + 5 ∧
      ((advanceTask t).completed = true ↔ t.est_minutes ≤ t.time_spent + 5) ∧
      (focusStep m).reminders
          = (if (advanceTask t).completed then ("Completed: " ++ t.title) :: m.reminders
             else m.reminders)) ∧
    (m.tasks.find? (isActive m.time_minute) = none →
      (focusStep m).tasks = m.tasks ∧
      (focusStep m).focus_log
          = m.focus_log ++ [{ minute := m.time_minute, task := none, worked := 0 }] ∧
      (focusStep m).reminders = m.reminders) := by
  rcases workScan_eq m.time_minute m.tasks with ⟨hall, heq⟩ | ⟨l₁, t, l₂, hsplit, hl₁, ht, heq⟩
  · have htasks : (focusStep m).tasks = m.tasks := by simp [focusStep, heq]
    have hfind : m.tasks.find? (isActive m.time_minute) = none :=
      List.find?_eq_none.mpr (fun x hx => by simp [hall x hx])
    refine ⟨focusStep_length m, fun i => Or.inl (by rw [htasks]), fun u hu => ?_,
      fun _ => ⟨htasks, by simp [focusStep, heq], by simp [focusStep, heq]⟩⟩
    rw [hfind] at hu
    exact Option.noConfusion hu
  · have htasks : (focusStep m).tasks = l₁ ++ advanceTask t :: l₂ := by simp [focusStep, heq]
    have hfl : (focusStep m).focus_log
        = m.focus_log ++ [{ minute := m.time_minute, task := some (advanceTask t).title,
                            worked := 5 }] := by
      simp [focusStep, heq]
    have hrem : (focusStep m).reminders
        = (if (advanceTask t).completed then ("Completed: " ++ (advanceTask t).title) :: m.reminders
           else m.reminders) := by
      rcases hc : (advanceTask t).completed with _ | _ <;> simp [focusStep, heq, hc]
    have hfind : m.tasks.find? (isActive m.time_minute) = some t := by
      rw [hsplit]
      exact find?_first l₁ t l₂ hl₁ ht
    have htitle : (advanceTask t).title = t.title := (advanceTask_fields t).1
    have htime : (advanceTask t).time_spent = t.time_spent + 5 :=
      (advanceTask_fields t).2.2.2.2.2
    refine ⟨focusStep_length m, fun i => ?_, fun u hu => ?_, fun hnone => ?_⟩
    · by_cases hi : i = l₁.length
      · subst hi
        refine Or.inr ⟨t, ?_, ht, ?_, htime, fun j hj => ?_⟩
        · rw [hsplit]
          exact getElem?_append_middle l₁ t l₂
        · rw [htasks]
          exact getElem?_append_middle l₁ (advanceTask t) l₂
        · rw [htasks, hsplit]
          exact getElem?_append_middle_ne l₁ (advanceTask t) t l₂ j hj
      · left
        rw [htasks, hsplit]
        exact getElem?_append_middle_ne l₁ (advanceTask t) t l₂ i hi
    · rw [hfind] at hu
      injection hu with hu
      subst hu
      refine ⟨by rw [hfl, htitle], htime, ?_, by rw [hrem, htitle]⟩
      rw [advanceTask_completed, isActive_not_completed ht]
      simp
    · rw [hfind] at hnone
      exact Option.noConfusion hnone

/-- C4: one SchedulerRule step assigns a slot exactly to the incomplete
tasks lacking one: tasks with a slot or completed are untouched; every
unscheduled incomplete task appears in the sorted order (priority ascending,
then deadline with absent deadlines replaced by the `"9999"` sentinel); the
task at sorted position `k` receives `cursorAt` of `max 0 clock`, where
position 0 receives `max 0 clock` itself and each later position adds
`max 30 est_minutes` of its predecessor; the `usedIntervals` list is never
consulted, so a fresh assignment can overlap an existing interval (shown on
a concrete state); and when priorities tie, a task with a deadline below the
sentinel gets an earlier slot than a task with an absent deadline. -/
theorem scheduler_rule_spec :
    (∀ (m : UserModel) (i : Nat) (t : Task), m.tasks[i]? = some t →
        (t.assigned_slot ≠ none ∨ t.completed = true) →
        (schedulerStep m).tasks[i]? = some t) ∧
    (∀ (m : UserModel) (i : Nat) (t : Task), m.tasks[i]? = some t →
        t.assigned_slot = none → t.completed = false →
        ∃ k : Nat, (sortedUnscheduled m.tasks)[k]? = some (i, t)) ∧
    (∀ (m : UserModel) (k : Nat) (p : Nat × Task),
        (sortedUnscheduled m.tasks)[k]? = some p →
        (schedulerStep m).tasks[p.1]?
          = some { p.2 with assigned_slot := some (cursorAt (max 0 m.time_minute)
              (sortedUnscheduled m.tasks) k) }) ∧
    (∀ (c : Int) (l : List (Nat × Task)), cursorAt c l 0 = c) ∧
    (∀ (c : Int) (l : List (Nat × Task)) (k : Nat) (p : Nat × Task), l[k]? = some p →
        cursorAt c l (k + 1) = cursorAt c l k + max 30 p.2.est_minutes) ∧
    (usedIntervals [⟨"busy", 60, 3, none, some 0, 0, false⟩, mkTask "new" 20 3 none]
        = [(0, 60)] ∧
      (schedulerStep ⟨5, [⟨"busy", 60, 3, none, some 0, 0, false⟩, mkTask "new" 20 3 none],
          [], [], []⟩).tasks.map
        (fun t => t.assigned_slot) = [some 0, some 5] ∧
      (0 : Int) ≤ 5 ∧ (5 : Int) < 60) ∧
    (∀ (t1 t2 : Task) (d : String) (c : Int),
        t1.assigned_slot = none → t1.completed = false →
        t2.assigned_slot = none → t2.completed = false →
        t1.priority = t2.priority →
        t1.deadline = none → t2.deadline = some d → d ≠ "" → d < "9999" →
        (schedulerStep ⟨c, [t1, t2], [], [], []⟩).tasks.map (fun u => u.assigned_slot)
          = [some (max 0 c + max 30 t2.est_minutes), some (max 0 c)] ∧
        max 0 c < max 0 c + max 30 t2.est_minutes) := by
  refine ⟨?_, ?_, ?_, cursorAt_zero, ?_, by decide, ?_⟩
  · intro m i t hget hsel
    exact schedulerStep_skips hget hsel
  · intro m i t hget hslot hcomp
    exact List.mem_iff_getElem?.mp (mem_sortedUnscheduled_iff.mpr ⟨hget, hslot, hcomp⟩)
  · intro m k p hk
    obtain ⟨i, t⟩ := p
    obtain ⟨hget, hslot, hcomp⟩ := mem_sortedUnscheduled_iff.mp (List.getElem?_mem hk)
    rw [schedulerStep_tasks_getElem?, hget]
    rw [lookup_assignWalk (sortedUnscheduled_fst_nodup m.tasks) hk]
    simp
  · intro c l k p hk
    exact cursorAt_succ c l k p hk
  · intro t1 t2 d c hs1 hc1 hs2 hc2 hp hd1 hd2 hdne hdlt
    have hle : schedKeyLE t1 t2 = false := by
      have hnlt : ¬ (t1.priority < t2.priority) := by
        rw [hp]
        exact lt_irrefl _
      have hval : pyDeadlineOr (some d) = d := by simp [pyDeadlineOr, hdne]
      have hdata : (pyDeadlineOr (some d)).data < (pyDeadlineOr (none : Option String)).data := by
        rw [hval]
        exact String.lt_iff_toList_lt.mp hdlt
      simp [schedKeyLE, hnlt, hd1, hd2, hdata]
    have hsort : sortedUnscheduled [t1, t2] = [(1, t2), (0, t1)] := by
      simp [sortedUnscheduled, unscheduledTasks, enumFrom, pySort, pyInsert, hs1, hc1, hs2,
        hc2, hle]
    constructor
    · simp [schedulerStep, hsort, enumFrom, assignWalk, List.lookup]
    · have h30 : (30 : Int) ≤ max 30 t2.est_minutes := le_max_left _ _
      omega

/-- C5: a ReminderRule insertion happens only when the exact message text is
absent (string-equality dedup); an insertion goes to the front and is
immediately trimmed from the back to at most 50 entries, so ReminderRule's
own insertions never push `reminders` above 50; and the completion push of
WorkRule bypasses the trim, shown by a concrete state with 50 reminders that
ends the tick with 51. -/
theorem reminder_cap_spec :
    (∀ (rs : List String) (text : String), text ∈ rs → reminderInsert rs text = rs) ∧
    (∀ (rs : List String) (text : String), text ∉ rs →
        reminderInsert rs text = trim50 (text :: rs) ∧
        (reminderInsert rs text).head? = some text ∧
        (reminderInsert rs text).length = min (rs.length + 1) 50) ∧
    (∀ m : UserModel, (reminderStep m).reminders.length ≤ max m.reminders.length 50) ∧
    (∀ m : UserModel, m.reminders.length ≤ 50 → (reminderStep m).reminders.length ≤ 50) ∧
    (focusStep ⟨5, [⟨"t", 10, 3, none, some 0, 5, false⟩],
        List.replicate 50 "r", [], []⟩).reminders.length = 51 := by
  refine ⟨fun rs text h => by rw [reminderInsert, if_pos h],
    fun rs text h => ⟨by rw [reminderInsert, if_neg h], ?_, ?_⟩, ?_, ?_, by decide⟩
  · rw [reminderInsert, if_neg h, trim50_head?]
    rfl
  · rw [reminderInsert, if_neg h, trim50_length]
    simp
  · intro m
    exact reminderLoop_length_le m.time_minute m.tasks m.reminders
  · intro m hm
    have := reminderLoop_length_le m.time_minute m.tasks m.reminders
    have hstep : (reminderStep m).reminders = reminderLoop m.time_minute m.tasks m.reminders :=
      rfl
    rw [hstep]
    omega

/-- C6: on a tick with at least one incomplete task, PriorityRule decrements
(clamped below at 1) the priority of exactly those incomplete tasks whose
`est_minutes` is below 0.6 times the mean estimate of the incomplete tasks
while more than 3 tasks are incomplete; every other task is unchanged; the
rule does nothing when no incomplete task remains.  In particular
(Scenario C), for 5 seeded tasks of which 4 satisfy the condition, one
`step()` drops exactly those 4 priorities from 3 to 2 and keeps the 5th
at 3. -/
theorem priority_rule_spec :
    (∀ m : UserModel, m.tasks.filter (fun t => !t.completed) = [] → optimizerStep m = m) ∧
    (∀ (m : UserModel) (i : Nat) (t : Task), m.tasks[i]? = some t →
        t.completed = false →
        ((t.est_minutes : ℚ) <
          0.6 * (((((m.tasks.filter (fun u => !u.completed)).map (fun u => u.est_minutes)).sum : Int) : ℚ)
            / ((m.tasks.filter (fun u => !u.completed)).length : ℚ))) →
        (m.tasks.filter (fun u => !u.completed)).length > 3 →
        (optimizerStep m).tasks[i]? = some { t with priority := max 1 (t.priority - 1) }) ∧
    (∀ (m : UserModel) (i : Nat) (t : Task), m.tasks[i]? = some t →
        (t.completed = true ∨
          ¬ ((t.est_minutes : ℚ) <
            0.6 * (((((m.tasks.filter (fun u => !u.completed)).map
                (fun u => u.est_minutes)).sum : Int) : ℚ)
              / ((m.tasks.filter (fun u => !u.completed)).length : ℚ))) ∨
          (m.tasks.filter (fun u => !u.completed)).length ≤ 3) →
        (optimizerStep m).tasks[i]? = some t) ∧
    ((UserModel.step (initModel [mkTask "a" 10 3, mkTask "b" 10 3, mkTask "c" 10 3,
        mkTask "d" 10 3, mkTask "e" 100 3])).tasks.map (fun t => t.priority)
      = [2, 2, 2, 2, 3]) := by
  refine ⟨?_, ?_, ?_, by decide⟩
  · intro m h
    simp [optimizerStep, h]
  · intro m i t hget hcomp hlt hlen
    have hne : (m.tasks.filter (fun u => !u.completed)).isEmpty = false := by
      rcases hE : (m.tasks.filter (fun u => !u.completed)).isEmpty with _ | _
      · exact hE
      · rw [List.isEmpty_iff] at hE
        rw [hE] at hlen
        simp at hlen

    have hn : 0 < (m.tasks.filter (fun u => !u.completed)).length := by omega
    have hint : 10 * t.est_minutes * ((m.tasks.filter (fun u => !u.completed)).length : Int) <
        6 * ((m.tasks.filter (fun u => !u.completed)).map (fun u => u.est_minutes)).sum := by
      refine (optimizeTask_cond_iff _ _ _ hn).mpr ?_
      rw [mul_comm] at hlt
      exact hlt
    rw [optimizerStep_tasks_getElem?, hget]
    simp [hne, optimizeTask, hcomp, hint, hlen]
  · intro m i t hget hsel
    rw [optimizerStep_tasks_getElem?, hget]
    rcases hE : (m.tasks.filter (fun u => !u.completed)).isEmpty with _ | _
    · have hn : 0 < (m.tasks.filter (fun u => !u.completed)).length := by
        rcases hL : (m.tasks.filter (fun u => !u.completed)).length with _ | n
        · rw [List.length_eq_zero] at hL
          rw [hL] at hE
          simp at hE
        · omega
      rcases hsel with h1 | h1 | h1
      · simp [hE, optimizeTask, h1]
      · have hint : ¬ (10 * t.est_minutes *
            ((m.tasks.filter (fun u => !u.completed)).length : Int) <
            6 * ((m.tasks.filter (fun u => !u.completed)).map (fun u => u.est_minutes)).sum) := by
          intro hc
          refine h1 ?_
          rw [mul_comm]
          exact (optimizeTask_cond_iff _ _ _ hn).mp hc
        simp [hE, optimizeTask, hint]
      · have h3 : ¬ ((m.tasks.filter (fun u => !u.completed)).length > 3) := by omega
        simp [hE, optimizeTask, h3]
    · simp [hE]

/-- C7: starting from a state whose tasks all have priority in `[1, 5]`,
after any number of ticks every task's priority is still in `[1, 5]`, and
across each further tick every task's priority is non-increasing (no rule
ever raises it). -/
theorem priority_monotone_bounded (m : UserModel) (n : Nat)
    (h : ∀ t ∈ m.tasks, 1 ≤ t.priority ∧ t.priority ≤ 5) :
    (∀ t ∈ (UserModel.step^[n] m).tasks, 1 ≤ t.priority ∧ t.priority ≤ 5) ∧
    (∀ (i : Nat) (t t' : Task), (UserModel.step^[n] m).tasks[i]? = some t →
        (UserModel.step^[n + 1] m).tasks[i]? = some t' → t'.priority ≤ t.priority) := by
  refine ⟨priority_bounds_iterate m n h, ?_⟩
  intro i t t' hget hget'
  rw [Function.iterate_succ_apply'] at hget'
  obtain ⟨t'', h'', _, _, _, hprio, _, _⟩ := step_task_rel hget
  rw [hget'] at h''
  injection h'' with h''
  subst h''
  have hb := priority_bounds_iterate m n h t (List.getElem?_mem hget)
  rcases hprio with hp | hp
  · omega
  · rw [hp]
    omega

/-- C7 witness: the theorem applied to a concrete one-task seed and 2
ticks. -/
theorem priority_monotone_bounded_witness :
    (∀ t ∈ (UserModel.step^[2] (initModel [mkTask "a" 10 2])).tasks,
        1 ≤ t.priority ∧ t.priority ≤ 5) ∧
    (∀ (i : Nat) (t t' : Task),
        (UserModel.step^[2] (initModel [mkTask "a" 10 2])).tasks[i]? = some t →
        (UserModel.step^[2 + 1] (initModel [mkTask "a" 10 2])).tasks[i]? = some t' →
        t'.priority ≤ t.priority) :=
  priority_monotone_bounded (initModel [mkTask "a" 10 2]) 2 (by decide)

/-- C8: starting from a state seeded with positive `est_minutes`,
`time_spent = 0` and `completed = false`, after any number of ticks every
task's `time_spent` is non-negative and exceeds its `est_minutes` by at most
one tick's increment (5 minutes, because the completion check runs only
after the increment); and across each further tick `completed` never reverts
from true to false. -/
theorem time_spent_bounds (m : UserModel) (n : Nat)
    (h : ∀ t ∈ m.tasks, 0 < t.est_minutes ∧ t.time_spent = 0 ∧ t.completed = false) :
    (∀ t ∈ (UserModel.step^[n] m).tasks,
        0 ≤ t.time_spent ∧ t.time_spent ≤ t.est_minutes + 5) ∧
    (∀ (i : Nat) (t t' : Task), (UserModel.step^[n] m).tasks[i]? = some t →
        (UserModel.step^[n + 1] m).tasks[i]? = some t' →
        t.completed = true → t'.completed = true) := by
  have hinv := time_spent_invariant_iterate m n (fun t ht => by
    obtain ⟨h1, h2, h3⟩ := h t ht
    exact ⟨by omega, by omega, fun _ => by omega⟩)
  refine ⟨fun t ht => ⟨(hinv t ht).1, (hinv t ht).2.1⟩, ?_⟩
  intro i t t' hget hget'
  rw [Function.iterate_succ_apply'] at hget'
  obtain ⟨t'', h'', _, _, _, _, _, hts⟩ := step_task_rel hget
  rw [hget'] at h''
  injection h'' with h''
  subst h''
  intro hc
  rcases hts with ⟨_, hcp⟩ | ⟨hcf, _, _⟩
  · rw [hcp]
    exact hc
  · rw [hc] at hcf
    exact Bool.noConfusion hcf

/-- C8 witness: the theorem applied to a concrete one-task seed and 1
tick. -/
theorem time_spent_bounds_witness :
    (∀ t ∈ (UserModel.step^[1] (initModel [mkTask "a" 10 2])).tasks,
        0 ≤ t.time_spent ∧ t.time_spent ≤ t.est_minutes + 5) ∧
    (∀ (i : Nat) (t t' : Task),
        (UserModel.step^[1] (initModel [mkTask "a" 10 2])).tasks[i]? = some t →
        (UserModel.step^[1 + 1] (initModel [mkTask "a" 10 2])).tasks[i]? = some t' →
        t.completed = true → t'.completed = true) :=
  time_spent_bounds (initModel [mkTask "a" 10 2]) 1 (by decide)

/-- C9: the `/report` route fails with the distinct "no model initialized"
condition exactly when no model exists, fails with the distinct "no tasks"
condition when the model holds zero tasks, and otherwise returns the total
task count, the completed count, the percentage complete rounded to 2
decimals and the mean estimate rounded to 2 decimals; being a pure function
of the state, it mutates nothing. -/
theorem report_conditions (me m : UserModel) (h0 : me.tasks = []) (hne : m.tasks ≠ []) :
    report none = Except.error "no model initialized" ∧
    report (some me) = Except.error "no tasks" ∧
    report (some m) = Except.ok
      { total_tasks := m.tasks.length,
        completed := (m.tasks.filter (fun t => t.completed)).length,
        pct_done := round2 (((m.tasks.filter (fun t => t.completed)).length : ℚ)
          / (m.tasks.length : ℚ) * 100),
        avg_est_minutes := round2 (((m.tasks.map (fun t => t.est_minutes)).sum : ℚ)
          / (m.tasks.length : ℚ)) } ∧
    ("no model initialized" : String) ≠ "no tasks" := by
  refine ⟨rfl, ?_, ?_, by decide⟩
  · simp [report, h0]
  · have hlen : m.tasks.length ≠ 0 := fun hl => hne (List.length_eq_zero.mp hl)
    simp [report, List.isEmpty_iff, hne, hlen]

/-- C9 witness: the theorem applied to the empty seed and a concrete
one-task model. -/
theorem report_conditions_witness :
    report none = Except.error "no model initialized" ∧
    report (some (initModel [])) = Except.error "no tasks" ∧
    report (some (initModel [mkTask "a" 10 3])) = Except.ok
      { total_tasks := (initModel [mkTask "a" 10 3]).tasks.length,
        completed := ((initModel [mkTask "a" 10 3]).tasks.filter (fun t => t.completed)).length,
        pct_done := round2 ((((initModel [mkTask "a" 10 3]).tasks.filter
            (fun t => t.completed)).length : ℚ)
          / ((initModel [mkTask "a" 10 3]).tasks.length : ℚ) * 100),
        avg_est_minutes := round2 ((((initModel [mkTask "a" 10 3]).tasks.map
            (fun t => t.est_minutes)).sum : ℚ)
          / ((initModel [mkTask "a" 10 3]).tasks.length : ℚ)) } ∧
    ("no model initialized" : String) ≠ "no tasks" :=
  report_conditions (initModel []) (initModel [mkTask "a" 10 3]) rfl (by decide)

/-- C10 (implicit): a task that is incomplete, has an assigned slot, and
whose window already lies in the past (`slot + est_minutes ≤ clock`) is
starved permanently: the scheduler never reassigns a slot that is set, the
work-window check never matches again (the clock only grows), so no number
of subsequent ticks ever changes its `time_spent` or sets `completed`. -/
theorem starved_task_frozen (m : UserModel) (i : Nat) (t : Task) (slot : Int)
    (hget : m.tasks[i]? = some t) (hslot : t.assigned_slot = some slot)
    (hcomp : t.completed = false) (hclock : slot + t.est_minutes ≤ m.time_minute) :
    ∀ n : Nat, ∃ t', (UserModel.step^[n] m).tasks[i]? = some t' ∧
      t'.time_spent = t.time_spent ∧ t'.completed = false := by
  have key : ∀ n : Nat, ∃ t', (UserModel.step^[n] m).tasks[i]? = some t' ∧
      t'.assigned_slot = some slot ∧ t'.est_minutes = t.est_minutes ∧
      t'.time_spent = t.time_spent ∧ t'.completed = false := by
    intro n
    induction n with
    | zero => exact ⟨t, by simpa using hget, hslot, rfl, rfl, hcomp⟩
    | succ n ih =>
      obtain ⟨u, hu, us, ue, ut, uc⟩ := ih
      rw [Function.iterate_succ_apply']
      have hclk : slot + u.est_minutes ≤ (UserModel.step^[n] m).time_minute := by
        rw [ue, iterate_time]
        omega
      obtain ⟨t', h', s', e', ts', c'⟩ := step_task_frozen hu us uc hclk
      exact ⟨t', h', s', by rw [e', ue], by rw [ts', ut], c'⟩
  intro n
  obtain ⟨t', h', _, _, ht', hc'⟩ := key n
  exact ⟨t', h', ht', hc'⟩

/-- C10 witness: a concrete state at clock 20 with one incomplete task whose
window `[0, 20)` has already closed, followed for 3 ticks. -/
theorem starved_task_frozen_witness :
    ∃ t', (UserModel.step^[3]
        (⟨20, [⟨"s", 20, 3, none, some 0, 15, false⟩], [], [], []⟩ : UserModel)).tasks[0]?
          = some t' ∧
      t'.time_spent = (⟨"s", 20, 3, none, some 0, 15, false⟩ : Task).time_spent ∧
      t'.completed = false :=
  starved_task_frozen ⟨20, [⟨"s", 20, 3, none, some 0, 15, false⟩], [], [], []⟩ 0
    ⟨"s", 20, 3, none, some 0, 15, false⟩ 0 (by decide) (by decide) (by decide) (by decide) 3

end STM
